import Mathlib

/-!
Verification development for the account store of `src/database.py`
(class `DatabaseManager`, backed by an asyncpg connection pool over
PostgreSQL, table `gemini_accounts`).

Modelling conventions:
* The database table is a pure value `DBState`: the list of rows plus the
  `SERIAL` sequence counter that assigns the next `id`.
* Timestamps (`NOW()`, `CURRENT_TIMESTAMP`) are natural numbers passed in
  explicitly as `now`; NULLable columns are `Option`.
* `asyncpg.Pool` is a handle with a `closed` flag: `pool.close()` closes the
  handle but `DatabaseManager.pool` keeps pointing at it, and acquiring a
  connection from a closed pool raises; this is modelled by returning
  `Except.error DBError.poolClosed`.
* Each coroutine method becomes a function from the manager and the current
  `DBState` to `Except DBError` of its result (queries) or of the new
  `DBState` (statements).  A raised exception is `Except.error`; the caller's
  database state is unchanged in that case, matching single-statement
  atomicity of PostgreSQL.
* asyncpg performs parameter-binding type checks (a Python `bool` cannot be
  bound to a `TEXT` column, etc.); this is `DBError.typeMismatch`.  `NOT NULL`
  column violations surface only when the statement actually touches a row;
  this is `DBError.notNullViolation`.
-/

/-- A Python value bound as a SQL parameter in the `data` dict of
`update_account` (src/database.py line 107): a string, a boolean, an
integer, or `None`. -/
inductive Value where
  | vStr (s : String)
  | vBool (b : Bool)
  | vInt (n : Int)
  | vNull
  deriving DecidableEq

/-- One row of `gemini_accounts` as created by `_init_schema`
(src/database.py lines 34-53): `id SERIAL PRIMARY KEY`, `name VARCHAR(255)`
(nullable), `secure_c_ses TEXT NOT NULL`, `host_c_oses TEXT` (nullable),
`csesidx TEXT NOT NULL`, `config_id TEXT NOT NULL`,
`is_active BOOLEAN DEFAULT TRUE` (nullable in SQL),
`request_count BIGINT DEFAULT 0`, `last_used_at TIMESTAMP` (nullable),
`created_at TIMESTAMP DEFAULT CURRENT_TIMESTAMP`.  `request_count` and
`created_at` are never NULL in any state this module produces, so they are
plain `Nat`. -/
structure Account where
  id : Nat
  name : Option String
  secure_c_ses : String
  host_c_oses : Option String
  csesidx : String
  config_id : String
  is_active : Option Bool
  request_count : Nat
  last_used_at : Option Nat
  created_at : Nat
  deriving DecidableEq

/-- The state of the external database: the rows of `gemini_accounts` plus
the `SERIAL` sequence value used for the next inserted `id`. -/
structure DBState where
  rows : List Account
  nextId : Nat
  deriving DecidableEq

/-- An asyncpg pool handle.  `pool.close()` marks it closed; the
`DatabaseManager` keeps its reference to the closed handle. -/
structure Pool where
  closed : Bool
  deriving DecidableEq

/-- Exceptions that the data-access layer can raise. -/
inductive DBError where
  | connectFailed
  | poolClosed
  | typeMismatch
  | notNullViolation
  deriving DecidableEq

/-- The manager (src/database.py lines 10-13): `__init__` stores
`os.getenv("DATABASE_URL")` in `self.database_url` and sets
`self.pool = None`. -/
structure DatabaseManager where
  database_url : Option String
  pool : Option Pool
  deriving DecidableEq

/-- Construction of the manager: `__init__` reads `DATABASE_URL` from the
environment at construction time (src/database.py lines 11-13).
`envAtInit` is the value of that variable at that moment. -/
def DatabaseManager.init (envAtInit : Option String) : DatabaseManager :=
  { database_url := envAtInit, pool := none }

/-- Method `connect` (src/database.py lines 15-31): if `self.database_url`
is falsy it logs a warning and returns (disabled mode); otherwise it creates
the pool and runs `_init_schema` (idempotent DDL, no visible effect on an
existing table), re-raising any connection failure.  `envAtCall` is the value
of `DATABASE_URL` in the environment at the moment `connect` is invoked: the
source never reads the environment here (it only consults the stored
`self.database_url`), so the parameter is unused.  `canConnect` tells
whether `asyncpg.create_pool` succeeds; on failure `self.pool` keeps its
prior value because the assignment never happens. -/
def DatabaseManager.connect (self : DatabaseManager) (envAtCall : Option String)
    (canConnect : Bool) : Except DBError DatabaseManager :=
  match self.database_url with
  | none => .ok self
  | some _ =>
    if canConnect then .ok { self with pool := some { closed := false } }
    else .error .connectFailed

/-- Method `disconnect` (src/database.py lines 55-57): `if self.pool:
await self.pool.close()`.  The handle is closed but `self.pool` is NOT reset
to `None`. -/
def DatabaseManager.disconnect (self : DatabaseManager) : DatabaseManager :=
  match self.pool with
  | none => self
  | some _ => { self with pool := some { closed := true } }

/-- Comparison used by `ORDER BY last_used_at ASC NULLS FIRST`
(src/database.py line 66): a NULL sorts before every non-NULL value, and
non-NULL timestamps ascend. -/
def lastUsedLe (a b : Option Nat) : Bool :=
  match a, b with
  | none, _ => true
  | some _, none => false
  | some x, some y => x ≤ y

/-- Row ordering of `fetch_active_accounts` as a relation on accounts. -/
def activeOrder (a b : Account) : Prop :=
  lastUsedLe a.last_used_at b.last_used_at = true

instance : DecidableRel activeOrder := fun a b => by
  unfold activeOrder; infer_instance

instance : IsTotal Account activeOrder :=
  ⟨by
    intro a b
    unfold activeOrder lastUsedLe
    rcases a.last_used_at with _ | x <;> rcases b.last_used_at with _ | y <;> simp <;> omega⟩

instance : IsTrans Account activeOrder :=
  ⟨by
    intro a b c
    unfold activeOrder lastUsedLe
    rcases a.last_used_at with _ | x <;> rcases b.last_used_at with _ | y <;>
      rcases c.last_used_at with _ | z <;> simp <;> omega⟩

/-- Row ordering of `get_all_accounts` (`ORDER BY id ASC`). -/
def idOrder (a b : Account) : Prop :=
  a.id ≤ b.id

instance : DecidableRel idOrder := fun a b => by
  unfold idOrder; infer_instance

instance : IsTotal Account idOrder :=
  ⟨by intro a b; unfold idOrder; omega⟩

instance : IsTrans Account idOrder :=
  ⟨by intro a b c; unfold idOrder; omega⟩

/-- Method `fetch_active_accounts` (src/database.py lines 59-68): returns
`[]` when the pool is absent; otherwise `SELECT * FROM gemini_accounts WHERE
is_active = TRUE ORDER BY last_used_at ASC NULLS FIRST`.  SQL `is_active =
TRUE` is satisfied only by non-NULL TRUE. -/
def DatabaseManager.fetch_active_accounts (self : DatabaseManager) (db : DBState) :
    Except DBError (List Account) :=
  match self.pool with
  | none => .ok []
  | some p =>
    if p.closed then .error .poolClosed
    else .ok (List.insertionSort activeOrder
      (db.rows.filter (fun a => a.is_active == some true)))

/-- Method `increment_account_usage` (src/database.py lines 70-78):
`UPDATE gemini_accounts SET last_used_at = NOW(), request_count =
request_count + 1 WHERE id = $1`. -/
def DatabaseManager.increment_account_usage (self : DatabaseManager) (db : DBState)
    (now : Nat) (account_id : Nat) : Except DBError DBState :=
  match self.pool with
  | none => .ok db
  | some p =>
    if p.closed then .error .poolClosed
    else .ok { db with rows := db.rows.map (fun a =>
      if a.id = account_id then
        { a with last_used_at := some now, request_count := a.request_count + 1 }
      else a) }

/-- Method `update_account_usage` (src/database.py lines 80-90, the "legacy"
method): `UPDATE gemini_accounts SET last_used_at = NOW() WHERE id = $1`;
it does not touch `request_count`. -/
def DatabaseManager.update_account_usage (self : DatabaseManager) (db : DBState)
    (now : Nat) (account_id : Nat) : Except DBError DBState :=
  match self.pool with
  | none => .ok db
  | some p =>
    if p.closed then .error .poolClosed
    else .ok { db with rows := db.rows.map (fun a =>
      if a.id = account_id then { a with last_used_at := some now } else a) }

/-- Method `add_account` (src/database.py lines 92-99): `INSERT INTO
gemini_accounts (name, secure_c_ses, host_c_oses, csesidx, config_id)
VALUES ($1, $2, $3, $4, $5)`; the omitted columns take their schema
defaults: `id` from the SERIAL sequence, `is_active` TRUE, `request_count`
0, `last_used_at` NULL, `created_at` the current timestamp `now`. -/
def DatabaseManager.add_account (self : DatabaseManager) (db : DBState) (now : Nat)
    (name secure_c_ses host_c_oses csesidx config_id : String) :
    Except DBError DBState :=
  match self.pool with
  | none => .ok db
  | some p =>
    if p.closed then .error .poolClosed
    else .ok
      { rows := db.rows ++
          [{ id := db.nextId, name := some name, secure_c_ses := secure_c_ses,
             host_c_oses := some host_c_oses, csesidx := csesidx,
             config_id := config_id, is_active := some true, request_count := 0,
             last_used_at := none, created_at := now }],
        nextId := db.nextId + 1 }

/-- Method `get_all_accounts` (src/database.py lines 101-105):
`SELECT * FROM gemini_accounts ORDER BY id ASC`. -/
def DatabaseManager.get_all_accounts (self : DatabaseManager) (db : DBState) :
    Except DBError (List Account) :=
  match self.pool with
  | none => .ok []
  | some p =>
    if p.closed then .error .poolClosed
    else .ok (List.insertionSort idOrder db.rows)

/-- Method `delete_account` (src/database.py lines 126-129):
`DELETE FROM gemini_accounts WHERE id = $1`. -/
def DatabaseManager.delete_account (self : DatabaseManager) (db : DBState)
    (id : Nat) : Except DBError DBState :=
  match self.pool with
  | none => .ok db
  | some p =>
    if p.closed then .error .poolClosed
    else .ok { db with rows := db.rows.filter (fun a => ¬ a.id = id) }

/-- The whitelist of `update_account` (src/database.py line 111): the only
keys of `data` that produce a SET clause, iterated in this order. -/
def mutableKeys : List String :=
  ["name", "secure_c_ses", "host_c_oses", "csesidx", "config_id", "is_active"]

/-- The recognized keys actually present in `data`, in whitelist order:
the keys for which `update_account` emits a SET clause. -/
def presentKeys (data : List (String × Value)) : List String :=
  mutableKeys.filter (fun k => (data.lookup k).isSome)

/-- Parameter-binding type check performed by asyncpg: `is_active` is a
BOOLEAN column (accepts a bool or NULL), every other mutable column is
text-typed (accepts a string or NULL). -/
def bindOk (k : String) (v : Value) : Bool :=
  if k = "is_active" then
    match v with
    | .vBool _ => true
    | .vNull => true
    | _ => false
  else
    match v with
    | .vStr _ => true
    | .vNull => true
    | _ => false

/-- All values bound by the generated UPDATE statement type-check. -/
def bindAllOk (data : List (String × Value)) : Bool :=
  (presentKeys data).all (fun k =>
    match data.lookup k with
    | some v => bindOk k v
    | none => true)

/-- The mutable columns declared NOT NULL in the schema. -/
def notNullKeys : List String :=
  ["secure_c_ses", "csesidx", "config_id"]

/-- Whether executing the UPDATE would violate a NOT NULL constraint: some
present key of a NOT NULL column carries `None`, and a row actually matches
`id` (PostgreSQL raises only when the statement touches a row). -/
def nullViolation (data : List (String × Value)) (db : DBState) (id : Nat) : Bool :=
  (presentKeys data).any (fun k =>
    notNullKeys.contains k && data.lookup k == some Value.vNull)
  && db.rows.any (fun a => a.id == id)

/-- Effect of one SET clause `k = v` on a row, for `k` in the whitelist and
`v` passing the binding type check.  NULL clears a nullable column; for the
NOT NULL columns the NULL case is excluded by `nullViolation` before the
statement applies. -/
def setFieldVal (a : Account) (k : String) (v : Value) : Account :=
  if k = "name" then
    match v with
    | .vStr s => { a with name := some s }
    | .vNull => { a with name := none }
    | _ => a
  else if k = "secure_c_ses" then
    match v with
    | .vStr s => { a with secure_c_ses := s }
    | _ => a
  else if k = "host_c_oses" then
    match v with
    | .vStr s => { a with host_c_oses := some s }
    | .vNull => { a with host_c_oses := none }
    | _ => a
  else if k = "csesidx" then
    match v with
    | .vStr s => { a with csesidx := s }
    | _ => a
  else if k = "config_id" then
    match v with
    | .vStr s => { a with config_id := s }
    | _ => a
  else if k = "is_active" then
    match v with
    | .vBool b => { a with is_active := some b }
    | .vNull => { a with is_active := none }
    | _ => a
  else a

/-- One step of the SET clause application: apply the clause for key `k`
when `data` carries that key. -/
def patchStep (data : List (String × Value)) (acc : Account) (k : String) : Account :=
  match data.lookup k with
  | some v => setFieldVal acc k v
  | none => acc

/-- Combined effect of the generated `SET k1 = $1, k2 = $2, ...` clause list
on a matched row: each present whitelisted key is applied in whitelist
order. -/
def applyPatch (data : List (String × Value)) (a : Account) : Account :=
  (presentKeys data).foldl (patchStep data) a

/-- Method `update_account` (src/database.py lines 107-124).  Order of the
source: (1) `if not self.pool: return`; (2) build the SET clauses from the
whitelisted keys present in `data`; (3) `if not set_clauses: return` -- no
connection is acquired and no statement runs; (4) acquire a connection
(raises if the pool is closed); (5) execute the single UPDATE (binding
type checks, then NOT NULL checks on the touched row, then the row
update). -/
def DatabaseManager.update_account (self : DatabaseManager) (db : DBState)
    (id : Nat) (data : List (String × Value)) : Except DBError DBState :=
  match self.pool with
  | none => .ok db
  | some p =>
    if (presentKeys data).isEmpty then .ok db
    else if p.closed then .error .poolClosed
    else if ¬ bindAllOk data then .error .typeMismatch
    else if nullViolation data db id then .error .notNullViolation
    else .ok { db with rows := db.rows.map (fun a =>
      if a.id = id then applyPatch data a else a) }

/-- Lookup of the (unique) row matching an id, as the WHERE clauses do. -/
def findRow (db : DBState) (id : Nat) : Option Account :=
  db.rows.find? (fun a => a.id == id)

/-- Freshness of the SERIAL sequence: every existing row id is below the
next value the sequence will hand out.  This holds for every database that
only this module has written to. -/
def IdsFresh (db : DBState) : Prop :=
  ∀ a ∈ db.rows, a.id < db.nextId

/-- One invocation of a public method of the manager, with the inputs the
environment supplies at that moment (current time, arguments). -/
inductive Op where
  | opConnect (envAtCall : Option String) (canConnect : Bool)
  | opDisconnect
  | opFetchActive
  | opGetAll
  | opAdd (now : Nat) (name secure_c_ses host_c_oses csesidx config_id : String)
  | opUpdate (id : Nat) (data : List (String × Value))
  | opDelete (id : Nat)
  | opIncrement (now : Nat) (id : Nat)
  | opUpdateUsage (now : Nat) (id : Nat)

/-- A raised exception leaves the database state as it was (the failing
statement is atomic and changes nothing). -/
def keepOnError (db : DBState) : Except DBError DBState → DBState
  | .ok db2 => db2
  | .error _ => db

/-- Effect of one public method invocation on the pair (manager, database).
Exceptions propagate to the caller; the state they leave behind is the
prior one. -/
def applyOp : DatabaseManager × DBState → Op → DatabaseManager × DBState
  | (m, db), .opConnect env cc =>
    match m.connect env cc with
    | .ok m2 => (m2, db)
    | .error _ => (m, db)
  | (m, db), .opDisconnect => (m.disconnect, db)
  | (m, db), .opFetchActive => (m, db)
  | (m, db), .opGetAll => (m, db)
  | (m, db), .opAdd now n s h c g => (m, keepOnError db (m.add_account db now n s h c g))
  | (m, db), .opUpdate i data => (m, keepOnError db (m.update_account db i data))
  | (m, db), .opDelete i => (m, keepOnError db (m.delete_account db i))
  | (m, db), .opIncrement now i => (m, keepOnError db (m.increment_account_usage db now i))
  | (m, db), .opUpdateUsage now i => (m, keepOnError db (m.update_account_usage db now i))

/-- Effect of a sequence of public method invocations. -/
def runOps (s : DatabaseManager × DBState) (ops : List Op) : DatabaseManager × DBState :=
  ops.foldl applyOp s

/-- A concrete disabled manager used by witnesses. -/
def mDisabled : DatabaseManager := DatabaseManager.init none

/-- A concrete database state used by witnesses. -/
def dbEmpty : DBState := { rows := [], nextId := 1 }

/-- A concrete connected manager used by witnesses. -/
def mConn : DatabaseManager :=
  { database_url := some "postgresql://h/db", pool := some { closed := false } }

/-- A concrete account used by witnesses. -/
def acctEx : Account :=
  { id := 1, name := some "acct1", secure_c_ses := "sc1", host_c_oses := some "",
    csesidx := "idx1", config_id := "cfg1", is_active := some true,
    request_count := 0, last_used_at := none, created_at := 10 }

/-- A concrete inactive account used by witnesses. -/
def acctEx2 : Account :=
  { acctEx with id := 2, is_active := some false, last_used_at := some 7 }

/-- A concrete active, already-used account used by witnesses. -/
def acctEx3 : Account :=
  { acctEx with id := 3, last_used_at := some 4 }

/-- A concrete three-row database used by witnesses. -/
def dbEx : DBState := { rows := [acctEx, acctEx2, acctEx3], nextId := 4 }

/-- A concrete update mapping used by witnesses: one recognized key and one
unrecognized key. -/
def dataEx : List (String × Value) := [("name", Value.vStr "n9"), ("hacker", Value.vInt 7)]

/-- A concrete two-field update mapping used by witnesses. -/
def dataEx2 : List (String × Value) :=
  [("name", Value.vStr "n9"), ("is_active", Value.vBool false)]

/-- Facts relating a database state to a successor state, used to propagate
the monotonicity and immutability invariants across one public operation:
the sequence value never decreases, id freshness is preserved, an id that is
absent and below the sequence value stays absent, and a row found before and
after kept its `id` and `created_at` and did not decrease its
`request_count`. -/
def StepFacts (db db2 : DBState) : Prop :=
  db.nextId ≤ db2.nextId ∧
  (IdsFresh db → IdsFresh db2) ∧
  (∀ i, i < db.nextId → findRow db i = none → findRow db2 i = none) ∧
  (∀ i a a2, findRow db i = some a → findRow db2 i = some a2 →
    a.request_count ≤ a2.request_count ∧ a2.created_at = a.created_at ∧ a2.id = a.id)

/-! Helper lemmas about row lookup under the three statement shapes
(pointwise update, delete, insert). -/

/-- Lookup commutes with a row map that preserves ids. -/
theorem find_map_id_pres (f : Account → Account) (hf : ∀ a, (f a).id = a.id)
    (rows : List Account) (i : Nat) :
    (rows.map f).find? (fun a => a.id == i) = (rows.find? (fun a => a.id == i)).map f := by
  induction rows with
  | nil => rfl
  | cons a t ih =>
    by_cases h : a.id = i
    · rw [List.map_cons, List.find?_cons_of_pos _ (by simp [hf, h]),
        List.find?_cons_of_pos _ (by simp [h])]
      rfl
    · rw [List.map_cons, List.find?_cons_of_neg _ (by simp [hf, h]),
        List.find?_cons_of_neg _ (by simp [h])]
      exact ih

/-- A filter that keeps everything the searched predicate can match does not
change the lookup result. -/
theorem find_filter_keep (p q : Account → Bool) (rows : List Account)
    (h : ∀ a, p a = true → q a = true) :
    (rows.filter q).find? p = rows.find? p := by
  induction rows with
  | nil => rfl
  | cons a t ih =>
    by_cases hq : q a = true
    · rw [List.filter_cons_of_pos hq]
      cases hp : p a with
      | true => rw [List.find?_cons_of_pos _ hp, List.find?_cons_of_pos _ hp]
      | false => rw [List.find?_cons_of_neg _ (by simp [hp]), List.find?_cons_of_neg _ (by simp [hp])]; exact ih
    · have hp : p a = false := by
        cases hpa : p a with
        | true => exact absurd (h a hpa) hq
        | false => rfl
      rw [List.filter_cons_of_neg (by simpa using hq),
        List.find?_cons_of_neg _ (by simp [hp])]
      exact ih

/-- A filter that removes everything the searched predicate can match makes
the lookup fail. -/
theorem find_filter_drop (p q : Account → Bool) (rows : List Account)
    (h : ∀ a, p a = true → q a = false) :
    (rows.filter q).find? p = none := by
  rw [List.find?_eq_none]
  intro a ha
  rw [List.mem_filter] at ha
  intro hpa
  rw [h a hpa] at ha
  exact absurd ha.2 (by simp)

/-- Lookup in an extended list when the prefix already matches. -/
theorem find_append_some (p : Account → Bool) (l l2 : List Account) (a : Account)
    (h : l.find? p = some a) : (l ++ l2).find? p = some a := by
  induction l with
  | nil => simp at h
  | cons b t ih =>
    cases hp : p b with
    | true =>
      rw [List.find?_cons_of_pos _ hp] at h
      rw [List.cons_append, List.find?_cons_of_pos _ hp]
      exact h
    | false =>
      rw [List.find?_cons_of_neg _ (by simp [hp])] at h
      rw [List.cons_append, List.find?_cons_of_neg _ (by simp [hp])]
      exact ih h

/-- Lookup in an extended list when the prefix has no match. -/
theorem find_append_none (p : Account → Bool) (l l2 : List Account)
    (h : l.find? p = none) : (l ++ l2).find? p = l2.find? p := by
  induction l with
  | nil => rfl
  | cons b t ih =>
    rw [List.find?_eq_none] at h
    have hp : p b = false := by
      cases hpb : p b with
      | true => exact absurd hpb (h b (by simp))
      | false => rfl
    rw [List.cons_append, List.find?_cons_of_neg _ (by simp [hp])]
    exact ih (by rw [List.find?_eq_none]; intro x hx; exact h x (by simp [hx]))

/-- A pointwise update whose condition matches nothing is the identity. -/
theorem map_update_no_match (rows : List Account) (i : Nat) (f : Account → Account)
    (h : rows.find? (fun a => a.id == i) = none) :
    (rows.map fun a => if a.id = i then f a else a) = rows := by
  rw [List.find?_eq_none] at h
  have : ∀ a ∈ rows, (if a.id = i then f a else a) = a := by
    intro a ha
    rw [if_neg (by simpa using h a ha)]
  calc (rows.map fun a => if a.id = i then f a else a)
      = rows.map id := List.map_congr_left this
    _ = rows := List.map_id rows

/-- C1: with no connection string configured (and hence no pool), `connect`
returns without raising, both read operations return an empty sequence, and
every write operation silently does nothing; no operation raises in this
disabled mode. -/
theorem c1_disabled_mode (m : DatabaseManager) (db : DBState)
    (env : Option String) (cc : Bool) (now i : Nat)
    (n s h c g : String) (data : List (String × Value))
    (hu : m.database_url = none) (hp : m.pool = none) :
    m.connect env cc = .ok m ∧
    m.fetch_active_accounts db = .ok [] ∧
    m.get_all_accounts db = .ok [] ∧
    m.add_account db now n s h c g = .ok db ∧
    m.update_account db i data = .ok db ∧
    m.delete_account db i = .ok db ∧
    m.increment_account_usage db now i = .ok db ∧
    m.update_account_usage db now i = .ok db := by
  unfold DatabaseManager.connect DatabaseManager.fetch_active_accounts
    DatabaseManager.get_all_accounts DatabaseManager.add_account
    DatabaseManager.update_account DatabaseManager.delete_account
    DatabaseManager.increment_account_usage DatabaseManager.update_account_usage
  rw [hu, hp]
  simp



theorem c1_disabled_mode_witness :
    mDisabled.connect (some "postgresql://h/db") true = .ok mDisabled ∧
    mDisabled.fetch_active_accounts dbEmpty = .ok [] ∧
    mDisabled.get_all_accounts dbEmpty = .ok [] ∧
    mDisabled.add_account dbEmpty 5 "a" "s1" "h1" "x1" "cfg" = .ok dbEmpty ∧
    mDisabled.update_account dbEmpty 1 [("name", Value.vStr "z")] = .ok dbEmpty ∧
    mDisabled.delete_account dbEmpty 1 = .ok dbEmpty ∧
    mDisabled.increment_account_usage dbEmpty 5 1 = .ok dbEmpty ∧
    mDisabled.update_account_usage dbEmpty 5 1 = .ok dbEmpty :=
  c1_disabled_mode mDisabled dbEmpty (some "postgresql://h/db") true 5 1
    "a" "s1" "h1" "x1" "cfg" [("name", Value.vStr "z")] rfl rfl

/-- C8 as stated is false.  The source reads `DATABASE_URL` in `__init__`,
not in `connect`: a manager constructed while the variable was absent stays
in disabled mode even if the environment carries a connection string at the
moment `connect` is invoked, so the degradation is not determined by the
environment at `connect` time. -/
theorem c8_counterexample :
    (DatabaseManager.init none).connect (some "postgresql://h/db") true
      = .ok (DatabaseManager.init none) ∧
    (DatabaseManager.init none).pool = none ∧
    some "postgresql://h/db" ≠ (none : Option String) :=
  ⟨rfl, rfl, by simp⟩

/-- C8 amended: `__init__` reads the connection string from the environment
at construction time; `connect` consults only that stored value, ignoring
the environment at invocation time, and the store is in disabled mode after
`connect` exactly when the stored connection string is absent. -/
theorem c8_amended_connect (envInit envCall envCall2 : Option String) (cc : Bool) :
    ((DatabaseManager.init envInit).connect envCall cc
      = (DatabaseManager.init envInit).connect envCall2 cc) ∧
    (envInit = none →
      (DatabaseManager.init envInit).connect envCall cc = .ok (DatabaseManager.init envInit) ∧
      (DatabaseManager.init envInit).pool = none) ∧
    (∀ u, envInit = some u → cc = true →
      (DatabaseManager.init envInit).connect envCall cc
        = .ok { database_url := some u, pool := some { closed := false } }) ∧
    (∀ u, envInit = some u → cc = false →
      (DatabaseManager.init envInit).connect envCall cc = .error .connectFailed) := by
  unfold DatabaseManager.init DatabaseManager.connect
  rcases envInit with _ | u <;> cases cc <;> simp

theorem c8_amended_connect_witness :
    (DatabaseManager.init (some "postgresql://h/db")).connect none true
      = .ok { database_url := some "postgresql://h/db", pool := some { closed := false } } :=
  (c8_amended_connect (some "postgresql://h/db") none none true).2.2.1
    "postgresql://h/db" rfl rfl

/-- C9: after `disconnect` on a connected store the pool handle remains set
(the store does not revert to disabled mode), and subsequent operations
raise the closed-pool failure to the caller instead of yielding an empty
result or a silent no-op. -/
theorem c9_disconnect_not_disabled (m : DatabaseManager) (db : DBState)
    (now i : Nat) (n s h c g : String)
    (hp : m.pool = some { closed := false }) :
    m.disconnect.pool = some { closed := true } ∧
    m.disconnect.pool ≠ none ∧
    m.disconnect.get_all_accounts db = .error .poolClosed ∧
    m.disconnect.add_account db now n s h c g = .error .poolClosed ∧
    m.disconnect.fetch_active_accounts db = .error .poolClosed ∧
    m.disconnect.increment_account_usage db now i = .error .poolClosed ∧
    m.disconnect.delete_account db i = .error .poolClosed := by
  unfold DatabaseManager.disconnect DatabaseManager.get_all_accounts
    DatabaseManager.add_account DatabaseManager.fetch_active_accounts
    DatabaseManager.increment_account_usage DatabaseManager.delete_account
  rw [hp]
  simp


theorem c9_disconnect_not_disabled_witness :
    mConn.disconnect.pool = some { closed := true } ∧
    mConn.disconnect.pool ≠ none ∧
    mConn.disconnect.get_all_accounts dbEmpty = .error .poolClosed ∧
    mConn.disconnect.add_account dbEmpty 5 "a" "s1" "h1" "x1" "cfg" = .error .poolClosed ∧
    mConn.disconnect.fetch_active_accounts dbEmpty = .error .poolClosed ∧
    mConn.disconnect.increment_account_usage dbEmpty 5 1 = .error .poolClosed ∧
    mConn.disconnect.delete_account dbEmpty 1 = .error .poolClosed :=
  c9_disconnect_not_disabled mConn dbEmpty 5 1 "a" "s1" "h1" "x1" "cfg" rfl

/-- C3: on a connected store `fetch_active_accounts` returns exactly the
rows whose `is_active` is TRUE (every row with `is_active` FALSE or NULL is
excluded), ordered with NULL `last_used_at` before all non-NULL timestamps
and non-NULL timestamps ascending. -/
theorem c3_fetch_active (m : DatabaseManager) (db : DBState)
    (hp : m.pool = some { closed := false }) :
    ∃ l, m.fetch_active_accounts db = .ok l ∧
      l.Perm (db.rows.filter (fun a => a.is_active == some true)) ∧
      (∀ a : Account, a ∈ l ↔ a ∈ db.rows ∧ a.is_active = some true) ∧
      (∀ a ∈ db.rows, a.is_active ≠ some true → a ∉ l) ∧
      List.Pairwise (fun a b : Account => lastUsedLe a.last_used_at b.last_used_at = true) l := by
  have hperm := List.perm_insertionSort activeOrder
    (db.rows.filter (fun a => a.is_active == some true))
  refine ⟨_, ?_, hperm, ?_, ?_, ?_⟩
  · unfold DatabaseManager.fetch_active_accounts
    rw [hp]
    rfl
  · intro a
    rw [hperm.mem_iff, List.mem_filter]
    simp
  · intro a _ hne hmem
    rw [hperm.mem_iff, List.mem_filter] at hmem
    exact hne (by simpa using hmem.2)
  · have hs := List.sorted_insertionSort activeOrder
      (db.rows.filter (fun a => a.is_active == some true))
    exact List.Pairwise.imp (fun h => h) hs





theorem c3_fetch_active_witness :
    ∃ l, mConn.fetch_active_accounts dbEx = .ok l ∧
      l.Perm (dbEx.rows.filter (fun a => a.is_active == some true)) ∧
      (∀ a : Account, a ∈ l ↔ a ∈ dbEx.rows ∧ a.is_active = some true) ∧
      (∀ a ∈ dbEx.rows, a.is_active ≠ some true → a ∉ l) ∧
      List.Pairwise (fun a b : Account => lastUsedLe a.last_used_at b.last_used_at = true) l :=
  c3_fetch_active mConn dbEx rfl

/-- C4: on a connected store `increment_account_usage` bumps the matching
row's `request_count` by exactly 1 and sets its `last_used_at` to the
current time, leaves every other row and every other field unchanged, is a
no-op (without raising) when no row matches, and two consecutive calls bump
the count by 2 in total. -/
theorem c4_increment (m : DatabaseManager) (db : DBState) (now now2 i : Nat)
    (hp : m.pool = some { closed := false }) :
    ∃ db2, m.increment_account_usage db now i = .ok db2 ∧
      db2.nextId = db.nextId ∧
      db2.rows = db.rows.map (fun a =>
        if a.id = i then { a with last_used_at := some now,
                                  request_count := a.request_count + 1 } else a) ∧
      (∀ a, findRow db i = some a →
        findRow db2 i = some { a with last_used_at := some now,
                                      request_count := a.request_count + 1 }) ∧
      (∀ b ∈ db.rows, b.id ≠ i → b ∈ db2.rows) ∧
      (findRow db i = none → db2 = db) ∧
      (∃ db3, m.increment_account_usage db2 now2 i = .ok db3 ∧
        ∀ a, findRow db i = some a →
          findRow db3 i = some { a with last_used_at := some now2,
                                        request_count := a.request_count + 2 }) := by
  have hrun : ∀ (d : DBState) (t : Nat), m.increment_account_usage d t i = .ok
      { d with rows := d.rows.map (fun a => if a.id = i then
          { a with last_used_at := some t, request_count := a.request_count + 1 } else a) } := by
    intro d t
    unfold DatabaseManager.increment_account_usage
    rw [hp]
    rfl
  have hf : ∀ (t : Nat) (a : Account), ((fun a : Account => if a.id = i then
      { a with last_used_at := some t, request_count := a.request_count + 1 } else a) a).id
        = a.id := by
    intro t a
    by_cases h : a.id = i <;> simp [h]
  refine ⟨_, hrun db now, rfl, rfl, ?_, ?_, ?_, ?_⟩
  · intro a ha
    have hid : a.id = i := by
      have := List.find?_some ha
      simpa using this
    unfold findRow
    rw [find_map_id_pres _ (hf now) db.rows i]
    unfold findRow at ha
    rw [ha]
    simp [hid]
  · intro b hb hne
    have hfb : (if b.id = i then { b with last_used_at := some now, request_count := b.request_count + 1 } else b) = b := if_neg hne
    exact hfb ▸ List.mem_map_of_mem _ hb
  · intro hnone
    have hmap := map_update_no_match db.rows i
      (fun a => { a with last_used_at := some now, request_count := a.request_count + 1 })
      hnone
    show { db with rows := _ } = db
    rw [hmap]
  · refine ⟨_, hrun _ now2, ?_⟩
    intro a ha
    have hid : a.id = i := by
      have := List.find?_some ha
      simpa using this
    unfold findRow
    rw [find_map_id_pres _ (hf now2) _ i, find_map_id_pres _ (hf now) db.rows i]
    unfold findRow at ha
    rw [ha]
    simp [hid]

theorem c4_increment_witness :
    ∃ db2, mConn.increment_account_usage dbEx 20 1 = .ok db2 ∧
      db2.nextId = dbEx.nextId ∧
      db2.rows = dbEx.rows.map (fun a =>
        if a.id = 1 then { a with last_used_at := some 20,
                                  request_count := a.request_count + 1 } else a) ∧
      (∀ a, findRow dbEx 1 = some a →
        findRow db2 1 = some { a with last_used_at := some 20,
                                      request_count := a.request_count + 1 }) ∧
      (∀ b ∈ dbEx.rows, b.id ≠ 1 → b ∈ db2.rows) ∧
      (findRow dbEx 1 = none → db2 = dbEx) ∧
      (∃ db3, mConn.increment_account_usage db2 21 1 = .ok db3 ∧
        ∀ a, findRow dbEx 1 = some a →
          findRow db3 1 = some { a with last_used_at := some 21,
                                        request_count := a.request_count + 2 }) :=
  c4_increment mConn dbEx 20 21 1 rfl

/-- C7: on a connected store `update_account_usage` sets only the matching
row's `last_used_at` to the current time; `request_count` and every other
field of every row are unchanged -- in contrast to
`increment_account_usage`, which also bumps the counter. -/
theorem c7_update_usage (m : DatabaseManager) (db : DBState) (now i : Nat)
    (hp : m.pool = some { closed := false }) :
    ∃ db2, m.update_account_usage db now i = .ok db2 ∧
      db2.nextId = db.nextId ∧
      db2.rows = db.rows.map (fun a =>
        if a.id = i then { a with last_used_at := some now } else a) ∧
      (∀ a, findRow db i = some a →
        findRow db2 i = some { a with last_used_at := some now }) ∧
      (∀ a, findRow db i = some a → ∃ a2, findRow db2 i = some a2 ∧
        a2.request_count = a.request_count ∧ a2.last_used_at = some now) ∧
      (∀ b ∈ db.rows, b.id ≠ i → b ∈ db2.rows) ∧
      (∀ a, findRow db i = some a →
        ∃ db3, m.increment_account_usage db now i = .ok db3 ∧
          ∃ a3, findRow db3 i = some a3 ∧
            a3.request_count = a.request_count + 1) := by
  have hrun : m.update_account_usage db now i = .ok
      { db with rows := db.rows.map (fun a => if a.id = i then
          { a with last_used_at := some now } else a) } := by
    unfold DatabaseManager.update_account_usage
    rw [hp]
    rfl
  have hf : ∀ a : Account, ((fun a : Account => if a.id = i then
      { a with last_used_at := some now } else a) a).id = a.id := by
    intro a
    by_cases h : a.id = i <;> simp [h]
  have hmatched : ∀ a, findRow db i = some a →
      findRow { db with rows := db.rows.map (fun a => if a.id = i then
        { a with last_used_at := some now } else a) } i
        = some { a with last_used_at := some now } := by
    intro a ha
    have hid : a.id = i := by
      have := List.find?_some ha
      simpa using this
    unfold findRow
    rw [find_map_id_pres _ hf db.rows i]
    unfold findRow at ha
    rw [ha]
    simp [hid]
  refine ⟨_, hrun, rfl, rfl, hmatched, ?_, ?_, ?_⟩
  · intro a ha
    exact ⟨_, hmatched a ha, rfl, rfl⟩
  · intro b hb hne
    have hfb : (if b.id = i then { b with last_used_at := some now } else b) = b := if_neg hne
    exact hfb ▸ List.mem_map_of_mem _ hb
  · intro a ha
    have hinc : m.increment_account_usage db now i = .ok
        { db with rows := db.rows.map (fun a => if a.id = i then
            { a with last_used_at := some now, request_count := a.request_count + 1 }
          else a) } := by
      unfold DatabaseManager.increment_account_usage
      rw [hp]
      rfl
    have hid : a.id = i := by
      have := List.find?_some ha
      simpa using this
    have hfInc : ∀ b : Account, ((fun b : Account => if b.id = i then
        { b with last_used_at := some now, request_count := b.request_count + 1 }
        else b) b).id = b.id := by
      intro b
      by_cases h : b.id = i <;> simp [h]
    refine ⟨_, hinc, ({ a with last_used_at := some now, request_count := a.request_count + 1 } : Account), ?_, rfl⟩
    unfold findRow
    rw [find_map_id_pres _ hfInc db.rows i]
    unfold findRow at ha
    rw [ha]
    simp [hid]

theorem c7_update_usage_witness :
    ∃ db2, mConn.update_account_usage dbEx 20 1 = .ok db2 ∧
      db2.nextId = dbEx.nextId ∧
      db2.rows = dbEx.rows.map (fun a =>
        if a.id = 1 then { a with last_used_at := some 20 } else a) ∧
      (∀ a, findRow dbEx 1 = some a →
        findRow db2 1 = some { a with last_used_at := some 20 }) ∧
      (∀ a, findRow dbEx 1 = some a → ∃ a2, findRow db2 1 = some a2 ∧
        a2.request_count = a.request_count ∧ a2.last_used_at = some 20) ∧
      (∀ b ∈ dbEx.rows, b.id ≠ 1 → b ∈ db2.rows) ∧
      (∀ a, findRow dbEx 1 = some a →
        ∃ db3, mConn.increment_account_usage dbEx 20 1 = .ok db3 ∧
          ∃ a3, findRow db3 1 = some a3 ∧
            a3.request_count = a.request_count + 1) :=
  c7_update_usage mConn dbEx 20 1 rfl

/-- C6: on a connected store `add_account` appends exactly one new row whose
field values match the arguments, with `is_active` TRUE, `request_count` 0,
`last_used_at` NULL, `created_at` the insertion time, and a fresh id taken
from the store's sequence (distinct from every existing id); a subsequent
`get_all_accounts` includes exactly one row with that id, namely the new
row. -/
theorem c6_add_account (m : DatabaseManager) (db : DBState) (now : Nat)
    (name sc host cs cfg : String)
    (hp : m.pool = some { closed := false }) (hfresh : IdsFresh db) :
    ∃ db2, m.add_account db now name sc host cs cfg = .ok db2 ∧
      db2.rows = db.rows ++
        [{ id := db.nextId, name := some name, secure_c_ses := sc,
           host_c_oses := some host, csesidx := cs, config_id := cfg,
           is_active := some true, request_count := 0,
           last_used_at := none, created_at := now }] ∧
      db2.nextId = db.nextId + 1 ∧
      (∀ b ∈ db.rows, b.id ≠ db.nextId) ∧
      ∃ l, m.get_all_accounts db2 = .ok l ∧
        ({ id := db.nextId, name := some name, secure_c_ses := sc,
           host_c_oses := some host, csesidx := cs, config_id := cfg,
           is_active := some true, request_count := 0,
           last_used_at := none, created_at := now } : Account) ∈ l ∧
        l.countP (fun b => b.id == db.nextId) = 1 := by
  have hadd : m.add_account db now name sc host cs cfg = .ok
      { rows := db.rows ++
          [{ id := db.nextId, name := some name, secure_c_ses := sc,
             host_c_oses := some host, csesidx := cs, config_id := cfg,
             is_active := some true, request_count := 0,
             last_used_at := none, created_at := now }],
        nextId := db.nextId + 1 } := by
    unfold DatabaseManager.add_account
    rw [hp]
    rfl
  have hget : ∀ d : DBState, m.get_all_accounts d
      = .ok (List.insertionSort idOrder d.rows) := by
    intro d
    unfold DatabaseManager.get_all_accounts
    rw [hp]
    rfl
  have hperm := List.perm_insertionSort idOrder (db.rows ++
    [{ id := db.nextId, name := some name, secure_c_ses := sc,
       host_c_oses := some host, csesidx := cs, config_id := cfg,
       is_active := some true, request_count := 0,
       last_used_at := none, created_at := now } ])
  refine ⟨_, hadd, rfl, rfl, ?_, _, hget _, ?_, ?_⟩
  · intro b hb
    exact Nat.ne_of_lt (hfresh b hb)
  · rw [hperm.mem_iff]
    exact List.mem_append_right _ (by simp)
  · rw [hperm.countP_eq]
    rw [List.countP_append]
    have h0 : db.rows.countP (fun b => b.id == db.nextId) = 0 := by
      rw [List.countP_eq_zero]
      intro b hb
      simp [Nat.ne_of_lt (hfresh b hb)]
    rw [h0]
    simp [List.countP_cons]

theorem c6_add_account_witness :
    ∃ db2, mConn.add_account dbEx 30 "n2" "sc2" "h2" "ix2" "cf2" = .ok db2 ∧
      db2.rows = dbEx.rows ++
        [{ id := dbEx.nextId, name := some "n2", secure_c_ses := "sc2",
           host_c_oses := some "h2", csesidx := "ix2", config_id := "cf2",
           is_active := some true, request_count := 0,
           last_used_at := none, created_at := 30 }] ∧
      db2.nextId = dbEx.nextId + 1 ∧
      (∀ b ∈ dbEx.rows, b.id ≠ dbEx.nextId) ∧
      ∃ l, mConn.get_all_accounts db2 = .ok l ∧
        ({ id := dbEx.nextId, name := some "n2", secure_c_ses := "sc2",
           host_c_oses := some "h2", csesidx := "ix2", config_id := "cf2",
           is_active := some true, request_count := 0,
           last_used_at := none, created_at := 30 } : Account) ∈ l ∧
        l.countP (fun b => b.id == dbEx.nextId) = 1 :=
  c6_add_account mConn dbEx 30 "n2" "sc2" "h2" "ix2" "cf2" rfl (by unfold IdsFresh; decide)

/-- A SET clause for one key leaves every mutable column other than its own
unchanged. -/
theorem setFieldVal_ne (a : Account) (k : String) (v : Value) :
    (k ≠ "name" → (setFieldVal a k v).name = a.name) ∧
    (k ≠ "secure_c_ses" → (setFieldVal a k v).secure_c_ses = a.secure_c_ses) ∧
    (k ≠ "host_c_oses" → (setFieldVal a k v).host_c_oses = a.host_c_oses) ∧
    (k ≠ "csesidx" → (setFieldVal a k v).csesidx = a.csesidx) ∧
    (k ≠ "config_id" → (setFieldVal a k v).config_id = a.config_id) ∧
    (k ≠ "is_active" → (setFieldVal a k v).is_active = a.is_active) := by
  unfold setFieldVal
  split_ifs <;> cases v <;> simp_all

/-- A SET clause never changes `id`, `request_count`, `created_at` or
`last_used_at`: no whitelist key maps to those columns. -/
theorem setFieldVal_immutable (a : Account) (k : String) (v : Value) :
    (setFieldVal a k v).id = a.id ∧
    (setFieldVal a k v).request_count = a.request_count ∧
    (setFieldVal a k v).created_at = a.created_at ∧
    (setFieldVal a k v).last_used_at = a.last_used_at := by
  unfold setFieldVal
  split_ifs <;> cases v <;> simp

/-- A SET clause stores its bound value in its own column. -/
theorem setFieldVal_set (a : Account) :
    (∀ s, (setFieldVal a "name" (.vStr s)).name = some s) ∧
    ((setFieldVal a "name" .vNull).name = none) ∧
    (∀ s, (setFieldVal a "secure_c_ses" (.vStr s)).secure_c_ses = s) ∧
    (∀ s, (setFieldVal a "host_c_oses" (.vStr s)).host_c_oses = some s) ∧
    ((setFieldVal a "host_c_oses" .vNull).host_c_oses = none) ∧
    (∀ s, (setFieldVal a "csesidx" (.vStr s)).csesidx = s) ∧
    (∀ s, (setFieldVal a "config_id" (.vStr s)).config_id = s) ∧
    (∀ b, (setFieldVal a "is_active" (.vBool b)).is_active = some b) ∧
    ((setFieldVal a "is_active" .vNull).is_active = none) :=
  ⟨fun _ => rfl, rfl, fun _ => rfl, fun _ => rfl, rfl, fun _ => rfl,
   fun _ => rfl, fun _ => rfl, rfl⟩

/-- Applying SET clauses never changes the columns outside the whitelist. -/
theorem applyPatch_immutable (data : List (String × Value)) (a : Account) :
    (applyPatch data a).id = a.id ∧
    (applyPatch data a).request_count = a.request_count ∧
    (applyPatch data a).created_at = a.created_at ∧
    (applyPatch data a).last_used_at = a.last_used_at := by
  unfold applyPatch
  generalize presentKeys data = ks
  induction ks generalizing a with
  | nil => exact ⟨rfl, rfl, rfl, rfl⟩
  | cons k t ih =>
    rw [List.foldl_cons]
    obtain ⟨h1, h2, h3, h4⟩ := ih (patchStep data a k)
    have hs : (patchStep data a k).id = a.id ∧
        (patchStep data a k).request_count = a.request_count ∧
        (patchStep data a k).created_at = a.created_at ∧
        (patchStep data a k).last_used_at = a.last_used_at := by
      unfold patchStep
      cases data.lookup k with
      | none => exact ⟨rfl, rfl, rfl, rfl⟩
      | some v => exact setFieldVal_immutable a k v
    exact ⟨h1.trans hs.1, h2.trans hs.2.1, h3.trans hs.2.2.1, h4.trans hs.2.2.2⟩

/-- A fold of SET clauses over keys not containing `kf` leaves the column
read by `acc` unchanged, provided clauses for other keys do so. -/
theorem foldl_patchStep_acc_not_mem {α : Type} (acc : Account → α) (kf : String)
    (hframe : ∀ (a : Account) (k : String) (v : Value), k ≠ kf →
      acc (setFieldVal a k v) = acc a)
    (data : List (String × Value)) :
    ∀ (ks : List String) (a : Account), kf ∉ ks →
      acc (ks.foldl (patchStep data) a) = acc a := by
  intro ks
  induction ks with
  | nil => intro a _; rfl
  | cons k t ih =>
    intro a hk
    rw [List.foldl_cons]
    have hk1 : k ≠ kf := fun h => hk (h ▸ List.mem_cons_self k t)
    have hk2 : kf ∉ t := fun h => hk (List.mem_cons_of_mem _ h)
    rw [ih _ hk2]
    unfold patchStep
    cases data.lookup k with
    | none => rfl
    | some v => exact hframe a k v hk1

/-- A fold of SET clauses over a duplicate-free key list containing `kf`
stores the bound value of `kf` in the column read by `acc`. -/
theorem foldl_patchStep_acc_mem {α : Type} (acc : Account → α) (kf : String) (tv : α)
    (hframe : ∀ (a : Account) (k : String) (v : Value), k ≠ kf →
      acc (setFieldVal a k v) = acc a)
    (data : List (String × Value)) (v0 : Value)
    (hv : data.lookup kf = some v0)
    (hset : ∀ a, acc (setFieldVal a kf v0) = tv) :
    ∀ (ks : List String) (a : Account), kf ∈ ks → ks.Nodup →
      acc (ks.foldl (patchStep data) a) = tv := by
  intro ks
  induction ks with
  | nil => intro a h; simp at h
  | cons k t ih =>
    intro a hmem hnd
    rw [List.foldl_cons]
    rcases List.mem_cons.mp hmem with heq | hmemt
    · subst heq
      have hnot : kf ∉ t := (List.nodup_cons.mp hnd).1
      rw [foldl_patchStep_acc_not_mem acc kf hframe data t _ hnot]
      unfold patchStep
      rw [hv]
      exact hset a
    · exact ih (patchStep data a k) hmemt (List.nodup_cons.mp hnd).2

/-- Membership in the present-key list. -/
theorem mem_presentKeys (data : List (String × Value)) (k : String) :
    k ∈ presentKeys data ↔ k ∈ mutableKeys ∧ (data.lookup k).isSome := by
  unfold presentKeys
  rw [List.mem_filter]

/-- The present-key list never repeats a key. -/
theorem presentKeys_nodup (data : List (String × Value)) : (presentKeys data).Nodup := by
  unfold presentKeys
  exact List.Nodup.filter _ (by decide)

/-- Reading a column absent from the mapping through the patch. -/
theorem applyPatch_absent {α : Type} (acc : Account → α) (kf : String)
    (hframe : ∀ (a : Account) (k : String) (v : Value), k ≠ kf →
      acc (setFieldVal a k v) = acc a)
    (data : List (String × Value)) (a : Account) (h : data.lookup kf = none) :
    acc (applyPatch data a) = acc a := by
  unfold applyPatch
  apply foldl_patchStep_acc_not_mem acc kf hframe data (presentKeys data) a
  intro hmem
  rw [mem_presentKeys, h] at hmem
  simp at hmem

/-- Reading a column present in the mapping through the patch. -/
theorem applyPatch_present {α : Type} (acc : Account → α) (kf : String) (tv : α)
    (hframe : ∀ (a : Account) (k : String) (v : Value), k ≠ kf →
      acc (setFieldVal a k v) = acc a)
    (data : List (String × Value)) (v0 : Value)
    (hv : data.lookup kf = some v0)
    (hset : ∀ a, acc (setFieldVal a kf v0) = tv)
    (hmk : kf ∈ mutableKeys) (a : Account) :
    acc (applyPatch data a) = tv := by
  unfold applyPatch
  have hmem : kf ∈ presentKeys data := by
    rw [mem_presentKeys, hv]
    exact ⟨hmk, rfl⟩
  exact foldl_patchStep_acc_mem acc kf tv hframe data v0 hv hset
    (presentKeys data) a hmem (presentKeys_nodup data)

/-- Consing an entry for a different key does not change a lookup. -/
theorem lookup_cons_ne (k k2 : String) (v : Value) (data : List (String × Value))
    (h : k2 ≠ k) : ((k, v) :: data).lookup k2 = data.lookup k2 := by
  have hbf : (k2 == k) = false := beq_eq_false_iff_ne.mpr h
  simp [List.lookup, hbf]

/-- Pointwise-equal predicates give equal `all` results. -/
theorem all_congr_on (ks : List String) (f g : String → Bool)
    (h : ∀ k ∈ ks, f k = g k) : ks.all f = ks.all g := by
  induction ks with
  | nil => rfl
  | cons k t ih =>
    rw [List.all_cons, List.all_cons, h k (List.mem_cons_self k t),
      ih (fun x hx => h x (List.mem_cons_of_mem _ hx))]

/-- Pointwise-equal predicates give equal `any` results. -/
theorem any_congr_on (ks : List String) (f g : String → Bool)
    (h : ∀ k ∈ ks, f k = g k) : ks.any f = ks.any g := by
  induction ks with
  | nil => rfl
  | cons k t ih =>
    rw [List.any_cons, List.any_cons, h k (List.mem_cons_self k t),
      ih (fun x hx => h x (List.mem_cons_of_mem _ hx))]

/-- Mappings that agree on the looked-up keys patch identically. -/
theorem foldl_patchStep_congr (d1 d2 : List (String × Value)) (ks : List String)
    (h : ∀ k ∈ ks, d1.lookup k = d2.lookup k) :
    ∀ a : Account, ks.foldl (patchStep d1) a = ks.foldl (patchStep d2) a := by
  induction ks with
  | nil => intro a; rfl
  | cons k t ih =>
    intro a
    rw [List.foldl_cons, List.foldl_cons]
    have hstep : patchStep d1 a k = patchStep d2 a k := by
      unfold patchStep
      rw [h k (List.mem_cons_self k t)]
    rw [hstep]
    exact ih (fun x hx => h x (List.mem_cons_of_mem _ hx)) _

/-- Adding an entry whose key is outside the whitelist changes nothing in
`update_account`: not the clause list, not the binding checks, not the
constraint checks, not the applied patch, not the result. -/
theorem update_account_cons_unrecognized (k : String) (v : Value)
    (data : List (String × Value)) (hk : k ∉ mutableKeys) :
    presentKeys ((k, v) :: data) = presentKeys data ∧
    bindAllOk ((k, v) :: data) = bindAllOk data ∧
    (∀ (db : DBState) (i : Nat),
      nullViolation ((k, v) :: data) db i = nullViolation data db i) ∧
    (∀ a : Account, applyPatch ((k, v) :: data) a = applyPatch data a) ∧
    (∀ (m : DatabaseManager) (db : DBState) (i : Nat),
      m.update_account db i ((k, v) :: data) = m.update_account db i data) := by
  have hlk : ∀ k2 ∈ mutableKeys, ((k, v) :: data).lookup k2 = data.lookup k2 := by
    intro k2 hk2
    exact lookup_cons_ne k k2 v data (fun h => hk (h ▸ hk2))
  have hpk : presentKeys ((k, v) :: data) = presentKeys data := by
    unfold presentKeys
    exact List.filter_congr (fun x hx => by rw [hlk x hx])
  have hsub : ∀ k2 ∈ presentKeys data, k2 ∈ mutableKeys := by
    intro k2 hk2
    exact ((mem_presentKeys data k2).mp hk2).1
  have hbind : bindAllOk ((k, v) :: data) = bindAllOk data := by
    unfold bindAllOk
    rw [hpk]
    apply all_congr_on
    intro k2 hk2
    rw [hlk k2 (hsub k2 hk2)]
  have hnull : ∀ (db : DBState) (i : Nat),
      nullViolation ((k, v) :: data) db i = nullViolation data db i := by
    intro db i
    unfold nullViolation
    rw [hpk]
    have : ((presentKeys data).any (fun k2 =>
        notNullKeys.contains k2 && ((k, v) :: data).lookup k2 == some Value.vNull))
        = ((presentKeys data).any (fun k2 =>
        notNullKeys.contains k2 && data.lookup k2 == some Value.vNull)) := by
      apply any_congr_on
      intro k2 hk2
      rw [hlk k2 (hsub k2 hk2)]
    rw [this]
  have hpatch : ∀ a : Account, applyPatch ((k, v) :: data) a = applyPatch data a := by
    intro a
    unfold applyPatch
    rw [hpk]
    exact foldl_patchStep_congr _ _ _ (fun x hx => hlk x (hsub x hx)) a
  refine ⟨hpk, hbind, hnull, hpatch, ?_⟩
  intro m db i
  unfold DatabaseManager.update_account
  cases m.pool with
  | none => rfl
  | some p =>
    simp only [hpk, hbind, hnull, hpatch]

/-- Columns named by a present entry take the supplied value once the patch
is applied. -/
theorem applyPatch_sets (data : List (String × Value)) (a : Account) :
    (∀ s, data.lookup "name" = some (.vStr s) → (applyPatch data a).name = some s) ∧
    (∀ s, data.lookup "secure_c_ses" = some (.vStr s) → (applyPatch data a).secure_c_ses = s) ∧
    (∀ s, data.lookup "host_c_oses" = some (.vStr s) → (applyPatch data a).host_c_oses = some s) ∧
    (∀ s, data.lookup "csesidx" = some (.vStr s) → (applyPatch data a).csesidx = s) ∧
    (∀ s, data.lookup "config_id" = some (.vStr s) → (applyPatch data a).config_id = s) ∧
    (∀ b, data.lookup "is_active" = some (.vBool b) → (applyPatch data a).is_active = some b) := by
  refine ⟨?_, ?_, ?_, ?_, ?_, ?_⟩
  · intro s h
    exact applyPatch_present Account.name "name" (some s)
      (fun a2 k v hk => (setFieldVal_ne a2 k v).1 hk) data (.vStr s) h
      (fun a2 => (setFieldVal_set a2).1 s) (by decide) a
  · intro s h
    exact applyPatch_present Account.secure_c_ses "secure_c_ses" s
      (fun a2 k v hk => (setFieldVal_ne a2 k v).2.1 hk) data (.vStr s) h
      (fun a2 => (setFieldVal_set a2).2.2.1 s) (by decide) a
  · intro s h
    exact applyPatch_present Account.host_c_oses "host_c_oses" (some s)
      (fun a2 k v hk => (setFieldVal_ne a2 k v).2.2.1 hk) data (.vStr s) h
      (fun a2 => (setFieldVal_set a2).2.2.2.1 s) (by decide) a
  · intro s h
    exact applyPatch_present Account.csesidx "csesidx" s
      (fun a2 k v hk => (setFieldVal_ne a2 k v).2.2.2.1 hk) data (.vStr s) h
      (fun a2 => (setFieldVal_set a2).2.2.2.2.2.1 s) (by decide) a
  · intro s h
    exact applyPatch_present Account.config_id "config_id" s
      (fun a2 k v hk => (setFieldVal_ne a2 k v).2.2.2.2.1 hk) data (.vStr s) h
      (fun a2 => (setFieldVal_set a2).2.2.2.2.2.2.1 s) (by decide) a
  · intro b h
    exact applyPatch_present Account.is_active "is_active" (some b)
      (fun a2 k v hk => (setFieldVal_ne a2 k v).2.2.2.2.2 hk) data (.vBool b) h
      (fun a2 => (setFieldVal_set a2).2.2.2.2.2.2.2.1 b) (by decide) a

/-- Columns without a present entry keep their value through the patch. -/
theorem applyPatch_keeps (data : List (String × Value)) (a : Account) :
    (data.lookup "name" = none → (applyPatch data a).name = a.name) ∧
    (data.lookup "secure_c_ses" = none → (applyPatch data a).secure_c_ses = a.secure_c_ses) ∧
    (data.lookup "host_c_oses" = none → (applyPatch data a).host_c_oses = a.host_c_oses) ∧
    (data.lookup "csesidx" = none → (applyPatch data a).csesidx = a.csesidx) ∧
    (data.lookup "config_id" = none → (applyPatch data a).config_id = a.config_id) ∧
    (data.lookup "is_active" = none → (applyPatch data a).is_active = a.is_active) := by
  refine ⟨?_, ?_, ?_, ?_, ?_, ?_⟩
  · intro h
    exact applyPatch_absent Account.name "name"
      (fun a2 k v hk => (setFieldVal_ne a2 k v).1 hk) data a h
  · intro h
    exact applyPatch_absent Account.secure_c_ses "secure_c_ses"
      (fun a2 k v hk => (setFieldVal_ne a2 k v).2.1 hk) data a h
  · intro h
    exact applyPatch_absent Account.host_c_oses "host_c_oses"
      (fun a2 k v hk => (setFieldVal_ne a2 k v).2.2.1 hk) data a h
  · intro h
    exact applyPatch_absent Account.csesidx "csesidx"
      (fun a2 k v hk => (setFieldVal_ne a2 k v).2.2.2.1 hk) data a h
  · intro h
    exact applyPatch_absent Account.config_id "config_id"
      (fun a2 k v hk => (setFieldVal_ne a2 k v).2.2.2.2.1 hk) data a h
  · intro h
    exact applyPatch_absent Account.is_active "is_active"
      (fun a2 k v hk => (setFieldVal_ne a2 k v).2.2.2.2.2 hk) data a h

/-- Row lookup after the UPDATE row map: the matched row is patched, rows
with a different id are still present. -/
theorem findRow_applyPatch_map (db : DBState) (i : Nat) (data : List (String × Value)) :
    (∀ a, findRow db i = some a →
      findRow { db with rows := db.rows.map (fun b =>
        if b.id = i then applyPatch data b else b) } i
        = some (applyPatch data a)) ∧
    (∀ b ∈ db.rows, b.id ≠ i →
      b ∈ db.rows.map (fun b => if b.id = i then applyPatch data b else b)) := by
  have hf : ∀ b : Account,
      ((fun b : Account => if b.id = i then applyPatch data b else b) b).id = b.id := by
    intro b
    by_cases h : b.id = i
    · simp [h, (applyPatch_immutable data b).1]
    · simp [h]
  constructor
  · intro a ha
    have hid : a.id = i := by
      have := List.find?_some ha
      simpa using this
    unfold findRow
    rw [find_map_id_pres _ hf db.rows i]
    unfold findRow at ha
    rw [ha]
    simp [hid]
  · intro b hb hne
    have hfb : (if b.id = i then applyPatch data b else b) = b := if_neg hne
    exact hfb ▸ List.mem_map_of_mem _ hb

/-- C5: on a connected store `update_account` updates exactly the
recognized mutable fields present in the mapping on the matched row and
leaves all other fields of that row, all other rows, and the non-mutable
columns unchanged; unrecognized keys in the mapping are ignored without
error; and a mapping with no recognized mutable field (including the empty
mapping) executes no statement at all: the method returns with the state
unchanged for every pool state, a closed pool included. -/
theorem c5_update_account (m : DatabaseManager) (db : DBState) (i : Nat)
    (data : List (String × Value))
    (hp : m.pool = some { closed := false }) :
    (bindAllOk data = true → nullViolation data db i = false → presentKeys data ≠ [] →
      ∃ db2, m.update_account db i data = .ok db2 ∧
        db2.nextId = db.nextId ∧
        db2.rows = db.rows.map (fun a => if a.id = i then applyPatch data a else a) ∧
        (∀ a, findRow db i = some a → findRow db2 i = some (applyPatch data a)) ∧
        (∀ b ∈ db.rows, b.id ≠ i → b ∈ db2.rows)) ∧
    (∀ a : Account,
      (applyPatch data a).id = a.id ∧
      (applyPatch data a).request_count = a.request_count ∧
      (applyPatch data a).created_at = a.created_at ∧
      (applyPatch data a).last_used_at = a.last_used_at ∧
      (data.lookup "name" = none → (applyPatch data a).name = a.name) ∧
      (data.lookup "secure_c_ses" = none → (applyPatch data a).secure_c_ses = a.secure_c_ses) ∧
      (data.lookup "host_c_oses" = none → (applyPatch data a).host_c_oses = a.host_c_oses) ∧
      (data.lookup "csesidx" = none → (applyPatch data a).csesidx = a.csesidx) ∧
      (data.lookup "config_id" = none → (applyPatch data a).config_id = a.config_id) ∧
      (data.lookup "is_active" = none → (applyPatch data a).is_active = a.is_active)) ∧
    (∀ a : Account,
      (∀ s, data.lookup "name" = some (.vStr s) → (applyPatch data a).name = some s) ∧
      (∀ s, data.lookup "secure_c_ses" = some (.vStr s) → (applyPatch data a).secure_c_ses = s) ∧
      (∀ s, data.lookup "host_c_oses" = some (.vStr s) → (applyPatch data a).host_c_oses = some s) ∧
      (∀ s, data.lookup "csesidx" = some (.vStr s) → (applyPatch data a).csesidx = s) ∧
      (∀ s, data.lookup "config_id" = some (.vStr s) → (applyPatch data a).config_id = s) ∧
      (∀ b, data.lookup "is_active" = some (.vBool b) → (applyPatch data a).is_active = some b)) ∧
    (∀ (k : String) (v : Value), k ∉ mutableKeys →
      ∀ (m2 : DatabaseManager) (db2 : DBState) (i2 : Nat),
        m2.update_account db2 i2 ((k, v) :: data) = m2.update_account db2 i2 data) ∧
    (presentKeys data = [] →
      ∀ (m2 : DatabaseManager) (db2 : DBState) (i2 : Nat),
        m2.update_account db2 i2 data = .ok db2) := by
  refine ⟨?_, ?_, ?_, ?_, ?_⟩
  · intro hbind hnullv hne
    have hempty : (presentKeys data).isEmpty = false := by
      cases hpk : presentKeys data with
      | nil => exact absurd hpk hne
      | cons x t => rfl
    have hrun : m.update_account db i data = .ok { db with rows := db.rows.map (fun a =>
        if a.id = i then applyPatch data a else a) } := by
      unfold DatabaseManager.update_account
      rw [hp]
      simp [hempty, hbind, hnullv]
    exact ⟨_, hrun, rfl, rfl, (findRow_applyPatch_map db i data).1,
      (findRow_applyPatch_map db i data).2⟩
  · intro a
    obtain ⟨h1, h2, h3, h4⟩ := applyPatch_immutable data a
    obtain ⟨k1, k2, k3, k4, k5, k6⟩ := applyPatch_keeps data a
    exact ⟨h1, h2, h3, h4, k1, k2, k3, k4, k5, k6⟩
  · intro a
    exact applyPatch_sets data a
  · intro k v hk m2 db2 i2
    exact (update_account_cons_unrecognized k v data hk).2.2.2.2 m2 db2 i2
  · intro hpk m2 db2 i2
    unfold DatabaseManager.update_account
    cases m2.pool with
    | none => rfl
    | some p => simp [hpk]

theorem c5_update_account_witness :
    ∃ db2, mConn.update_account dbEx 1 dataEx = .ok db2 ∧
      db2.nextId = dbEx.nextId ∧
      db2.rows = dbEx.rows.map (fun a => if a.id = 1 then applyPatch dataEx a else a) ∧
      (∀ a, findRow dbEx 1 = some a → findRow db2 1 = some (applyPatch dataEx a)) ∧
      (∀ b ∈ dbEx.rows, b.id ≠ 1 → b ∈ db2.rows) :=
  (c5_update_account mConn dbEx 1 dataEx rfl).1 (by decide) (by decide) (by decide)

/-- C10: when the mapping supplies two or more recognized mutable fields,
the single generated UPDATE statement applies them atomically: either it
succeeds and the matched row carries the full patch (every supplied
recognized field takes its new value), or it raises and the database state
is unchanged; there is no state with only part of the supplied fields
applied. -/
theorem c10_update_atomic (m : DatabaseManager) (db : DBState) (i : Nat)
    (data : List (String × Value)) (hp : m.pool = some { closed := false })
    (h2 : 2 ≤ (presentKeys data).length) :
    (∃ db2, m.update_account db i data = .ok db2 ∧
       db2.rows = db.rows.map (fun a => if a.id = i then applyPatch data a else a) ∧
       (∀ a, findRow db i = some a → findRow db2 i = some (applyPatch data a)) ∧
       (∀ a : Account,
         (∀ s, data.lookup "name" = some (.vStr s) → (applyPatch data a).name = some s) ∧
         (∀ s, data.lookup "secure_c_ses" = some (.vStr s) → (applyPatch data a).secure_c_ses = s) ∧
         (∀ s, data.lookup "host_c_oses" = some (.vStr s) → (applyPatch data a).host_c_oses = some s) ∧
         (∀ s, data.lookup "csesidx" = some (.vStr s) → (applyPatch data a).csesidx = s) ∧
         (∀ s, data.lookup "config_id" = some (.vStr s) → (applyPatch data a).config_id = s) ∧
         (∀ b, data.lookup "is_active" = some (.vBool b) → (applyPatch data a).is_active = some b))) ∨
    (∃ e, m.update_account db i data = .error e ∧
       keepOnError db (m.update_account db i data) = db) := by
  have hempty : (presentKeys data).isEmpty = false := by
    cases hpk : presentKeys data with
    | nil => rw [hpk] at h2; simp at h2
    | cons x t => rfl
  cases hbind : bindAllOk data with
  | false =>
    right
    have herr : m.update_account db i data = .error .typeMismatch := by
      unfold DatabaseManager.update_account
      rw [hp]
      simp [hempty, hbind]
    exact ⟨_, herr, by rw [herr]; rfl⟩
  | true =>
    cases hnull : nullViolation data db i with
    | true =>
      right
      have herr : m.update_account db i data = .error .notNullViolation := by
        unfold DatabaseManager.update_account
        rw [hp]
        simp [hempty, hbind, hnull]
      exact ⟨_, herr, by rw [herr]; rfl⟩
    | false =>
      left
      have hrun : m.update_account db i data = .ok { db with rows := db.rows.map (fun a =>
          if a.id = i then applyPatch data a else a) } := by
        unfold DatabaseManager.update_account
        rw [hp]
        simp [hempty, hbind, hnull]
      exact ⟨_, hrun, rfl, (findRow_applyPatch_map db i data).1,
        fun a => applyPatch_sets data a⟩

theorem c10_update_atomic_witness :
    (∃ db2, mConn.update_account dbEx 1 dataEx2 = .ok db2 ∧
       db2.rows = dbEx.rows.map (fun a => if a.id = 1 then applyPatch dataEx2 a else a) ∧
       (∀ a, findRow dbEx 1 = some a → findRow db2 1 = some (applyPatch dataEx2 a)) ∧
       (∀ a : Account,
         (∀ s, dataEx2.lookup "name" = some (.vStr s) → (applyPatch dataEx2 a).name = some s) ∧
         (∀ s, dataEx2.lookup "secure_c_ses" = some (.vStr s) → (applyPatch dataEx2 a).secure_c_ses = s) ∧
         (∀ s, dataEx2.lookup "host_c_oses" = some (.vStr s) → (applyPatch dataEx2 a).host_c_oses = some s) ∧
         (∀ s, dataEx2.lookup "csesidx" = some (.vStr s) → (applyPatch dataEx2 a).csesidx = s) ∧
         (∀ s, dataEx2.lookup "config_id" = some (.vStr s) → (applyPatch dataEx2 a).config_id = s) ∧
         (∀ b, dataEx2.lookup "is_active" = some (.vBool b) → (applyPatch dataEx2 a).is_active = some b))) ∨
    (∃ e, mConn.update_account dbEx 1 dataEx2 = .error e ∧
       keepOnError dbEx (mConn.update_account dbEx 1 dataEx2) = dbEx) :=
  c10_update_atomic mConn dbEx 1 dataEx2 rfl (by decide)

/-- A state steps to itself. -/
theorem stepFacts_refl (db : DBState) : StepFacts db db := by
  refine ⟨le_refl _, fun h => h, fun i _ h => h, fun i a a2 h1 h2 => ?_⟩
  rw [h1] at h2
  cases h2
  exact ⟨le_refl _, rfl, rfl⟩

/-- A pointwise row update at one id satisfies the step facts when the row
transformation preserves `id` and `created_at` and does not decrease
`request_count`. -/
theorem stepFacts_mapUpd (db : DBState) (i0 : Nat) (f : Account → Account)
    (hid : ∀ a, (f a).id = a.id)
    (hrc : ∀ a, a.request_count ≤ (f a).request_count)
    (hca : ∀ a, (f a).created_at = a.created_at) :
    StepFacts db { db with rows := db.rows.map (fun a => if a.id = i0 then f a else a) } := by
  have hg : ∀ a : Account, ((fun a : Account => if a.id = i0 then f a else a) a).id = a.id := by
    intro a
    by_cases h : a.id = i0 <;> simp [h, hid]
  refine ⟨le_refl _, ?_, ?_, ?_⟩
  · intro hf a ha
    rw [List.mem_map] at ha
    obtain ⟨b, hb, rfl⟩ := ha
    rw [hg b]
    exact hf b hb
  · intro i _ hnone
    unfold findRow at hnone ⊢
    rw [find_map_id_pres _ hg db.rows i, hnone]
    rfl
  · intro i a a2 h1 h2
    unfold findRow at h1 h2
    rw [find_map_id_pres _ hg db.rows i, h1] at h2
    have h3 : (if a.id = i0 then f a else a) = a2 := by
      simpa using h2
    subst h3
    by_cases hcase : a.id = i0
    · rw [if_pos hcase]
      exact ⟨hrc a, hca a, hid a⟩
    · rw [if_neg hcase]
      exact ⟨le_refl _, rfl, rfl⟩

/-- Deleting the rows of one id satisfies the step facts. -/
theorem stepFacts_delete (db : DBState) (i0 : Nat) :
    StepFacts db { db with rows := db.rows.filter (fun a => ¬ a.id = i0) } := by
  refine ⟨le_refl _, ?_, ?_, ?_⟩
  · intro hf a ha
    exact hf a (List.mem_of_mem_filter ha)
  · intro i _ hnone
    unfold findRow at hnone ⊢
    rw [List.find?_eq_none] at hnone ⊢
    intro a ha
    exact hnone a (List.mem_of_mem_filter ha)
  · intro i a a2 h1 h2
    unfold findRow at h1 h2
    by_cases hcase : i0 = i
    · subst hcase
      rw [find_filter_drop] at h2
      · exact absurd h2 (by simp)
      · intro b hb
        have hbid : b.id = i0 := by simpa using hb
        simp [hbid]
    · rw [find_filter_keep] at h2
      · rw [h1] at h2
        cases h2
        exact ⟨le_refl _, rfl, rfl⟩
      · intro b hb
        have hbid : b.id = i := by simpa using hb
        simp [hbid]
        exact fun h => hcase h.symm

/-- Appending one fresh row satisfies the step facts. -/
theorem stepFacts_add (db : DBState) (new : Account) (hid : new.id = db.nextId) :
    StepFacts db { rows := db.rows ++ [new], nextId := db.nextId + 1 } := by
  refine ⟨Nat.le_succ _, ?_, ?_, ?_⟩
  · intro hf a ha
    rw [List.mem_append] at ha
    rcases ha with ha | ha
    · exact Nat.lt_succ_of_lt (hf a ha)
    · rw [List.mem_singleton] at ha
      subst ha
      rw [hid]
      exact Nat.lt_succ_self _
  · intro i hlt hnone
    unfold findRow at hnone ⊢
    rw [find_append_none _ _ _ hnone]
    rw [List.find?_cons_of_neg _ (by simp [hid]; omega)]
    rfl
  · intro i a a2 h1 h2
    unfold findRow at h1 h2
    rw [find_append_some _ _ _ _ h1] at h2
    cases h2
    exact ⟨le_refl _, rfl, rfl⟩

/-- Every public operation satisfies the step facts on the database state it
leaves behind, whatever the manager state. -/
theorem applyOp_step (m : DatabaseManager) (db : DBState) (op : Op) :
    StepFacts db (applyOp (m, db) op).2 := by
  cases op with
  | opConnect env cc =>
    have heq : (applyOp (m, db) (.opConnect env cc)).2 = db := by
      show (match m.connect env cc with
        | Except.ok m2 => (m2, db)
        | Except.error _ => (m, db)).2 = db
      cases m.connect env cc <;> rfl
    rw [heq]
    exact stepFacts_refl db
  | opDisconnect => exact stepFacts_refl db
  | opFetchActive => exact stepFacts_refl db
  | opGetAll => exact stepFacts_refl db
  | opAdd now n s h c g =>
    show StepFacts db (keepOnError db (m.add_account db now n s h c g))
    unfold DatabaseManager.add_account
    rcases hm : m.pool with _ | ⟨⟨b⟩⟩
    · exact stepFacts_refl db
    · cases b with
      | true => exact stepFacts_refl db
      | false => exact stepFacts_add db _ rfl
  | opUpdate i data =>
    show StepFacts db (keepOnError db (m.update_account db i data))
    unfold DatabaseManager.update_account
    rcases hm : m.pool with _ | ⟨⟨b⟩⟩
    · exact stepFacts_refl db
    · cases h1 : (presentKeys data).isEmpty with
      | true => exact stepFacts_refl db
      | false =>
        cases b with
        | true => exact stepFacts_refl db
        | false =>
          cases h3 : bindAllOk data with
          | false => exact stepFacts_refl db
          | true =>
            cases h4 : nullViolation data db i with
            | true => exact stepFacts_refl db
            | false =>
              exact stepFacts_mapUpd db i (applyPatch data)
                (fun a => (applyPatch_immutable data a).1)
                (fun a => le_of_eq ((applyPatch_immutable data a).2.1).symm)
                (fun a => (applyPatch_immutable data a).2.2.1)
  | opDelete i =>
    show StepFacts db (keepOnError db (m.delete_account db i))
    unfold DatabaseManager.delete_account
    rcases hm : m.pool with _ | ⟨⟨b⟩⟩
    · exact stepFacts_refl db
    · cases b with
      | true => exact stepFacts_refl db
      | false => exact stepFacts_delete db i
  | opIncrement now i =>
    show StepFacts db (keepOnError db (m.increment_account_usage db now i))
    unfold DatabaseManager.increment_account_usage
    rcases hm : m.pool with _ | ⟨⟨b⟩⟩
    · exact stepFacts_refl db
    · cases b with
      | true => exact stepFacts_refl db
      | false =>
        exact stepFacts_mapUpd db i _ (fun a => rfl) (fun a => Nat.le_succ _) (fun a => rfl)
  | opUpdateUsage now i =>
    show StepFacts db (keepOnError db (m.update_account_usage db now i))
    unfold DatabaseManager.update_account_usage
    rcases hm : m.pool with _ | ⟨⟨b⟩⟩
    · exact stepFacts_refl db
    · cases b with
      | true => exact stepFacts_refl db
      | false =>
        exact stepFacts_mapUpd db i _ (fun a => rfl) (fun a => le_refl _) (fun a => rfl)

/-- The step facts propagate through any sequence of public operations,
starting from a state whose ids are below the sequence value. -/
theorem runOps_facts (ops : List Op) :
    ∀ (m : DatabaseManager) (db : DBState), IdsFresh db →
      IdsFresh (runOps (m, db) ops).2 ∧
      db.nextId ≤ (runOps (m, db) ops).2.nextId ∧
      (∀ i, i < db.nextId → findRow db i = none → findRow (runOps (m, db) ops).2 i = none) ∧
      (∀ i a a2, findRow db i = some a → findRow (runOps (m, db) ops).2 i = some a2 →
        a.request_count ≤ a2.request_count ∧ a2.created_at = a.created_at ∧ a2.id = a.id) := by
  induction ops with
  | nil =>
    intro m db hf
    refine ⟨hf, le_refl _, fun i _ h => h, fun i a a2 h1 h2 => ?_⟩
    have h2b : findRow db i = some a2 := h2
    rw [h1] at h2b
    cases h2b
    exact ⟨le_refl _, rfl, rfl⟩
  | cons op t ih =>
    intro m db hf
    obtain ⟨s1, s2, s3, s4⟩ := applyOp_step m db op
    have hf1 : IdsFresh (applyOp (m, db) op).2 := s2 hf
    obtain ⟨t1, t2, t3, t4⟩ := ih (applyOp (m, db) op).1 (applyOp (m, db) op).2 hf1
    refine ⟨t1, le_trans s1 t2, ?_, ?_⟩
    · intro i hlt hnone
      exact t3 i (lt_of_lt_of_le hlt s1) (s3 i hlt hnone)
    · intro i a a2 h1 h2
      have h2b : findRow (runOps ((applyOp (m, db) op).1, (applyOp (m, db) op).2) t).2 i
          = some a2 := h2
      have hia : a.id = i := by
        have := List.find?_some h1
        simpa using this
      have hmem : a ∈ db.rows := List.mem_of_find?_eq_some h1
      have hlt : i < db.nextId := hia ▸ hf a hmem
      cases hmid : findRow (applyOp (m, db) op).2 i with
      | none =>
        have hend := t3 i (lt_of_lt_of_le hlt s1) hmid
        rw [hend] at h2b
        cases h2b
      | some a1 =>
        obtain ⟨r1, r2, r3⟩ := s4 i a a1 h1 hmid
        obtain ⟨q1, q2, q3⟩ := t4 i a1 a2 hmid h2b
        exact ⟨le_trans r1 q1, q2.trans r2, q3.trans r3⟩

/-- A pointwise relation between a list and its image under a map. -/
theorem forall2_map_self {R : Account → Account → Prop} (f : Account → Account)
    (h : ∀ a, R a (f a)) : ∀ l : List Account, List.Forall₂ R l (l.map f) := by
  intro l
  induction l with
  | nil => exact List.Forall₂.nil
  | cons a t ih => exact List.Forall₂.cons (h a) ih

/-- C2: across every sequence of public operations from a state whose ids
are below the sequence value, a row's `request_count` never decreases and
its `id` and `created_at` never change after insertion; and `update_account`
relates the rows before and after pointwise, never changing `id`,
`request_count`, `created_at` (nor `last_used_at`) -- even when the mapping
carries keys for them, only the six whitelisted mutable fields can
change. -/
theorem c2_invariants :
    (∀ (m : DatabaseManager) (db : DBState) (ops : List Op) (i : Nat) (a a2 : Account),
      IdsFresh db → findRow db i = some a →
      findRow (runOps (m, db) ops).2 i = some a2 →
      a.request_count ≤ a2.request_count ∧ a2.created_at = a.created_at ∧ a2.id = a.id) ∧
    (∀ (m : DatabaseManager) (db db2 : DBState) (i : Nat) (data : List (String × Value)),
      m.update_account db i data = .ok db2 →
      List.Forall₂ (fun a b : Account =>
        b.id = a.id ∧ b.request_count = a.request_count ∧
        b.created_at = a.created_at ∧ b.last_used_at = a.last_used_at) db.rows db2.rows) := by
  constructor
  · intro m db ops i a a2 hf h1 h2
    exact (runOps_facts ops m db hf).2.2.2 i a a2 h1 h2
  · intro m db db2 i data hok
    have hsame : List.Forall₂ (fun a b : Account =>
        b.id = a.id ∧ b.request_count = a.request_count ∧
        b.created_at = a.created_at ∧ b.last_used_at = a.last_used_at) db.rows db.rows := by
      have := forall2_map_self (R := fun a b : Account =>
        b.id = a.id ∧ b.request_count = a.request_count ∧
        b.created_at = a.created_at ∧ b.last_used_at = a.last_used_at)
        id (fun a => ⟨rfl, rfl, rfl, rfl⟩) db.rows
      simpa using this
    unfold DatabaseManager.update_account at hok
    rcases hm : m.pool with _ | ⟨⟨b⟩⟩ <;> rw [hm] at hok
    · cases hok
      exact hsame
    · cases h1 : (presentKeys data).isEmpty <;> rw [h1] at hok
      · cases b with
        | true => simp at hok
        | false =>
          cases h3 : bindAllOk data <;> rw [h3] at hok
          · simp at hok
          · cases h4 : nullViolation data db i <;> rw [h4] at hok
            · have hd : db2 = { db with rows := db.rows.map (fun a =>
                  if a.id = i then applyPatch data a else a) } := by
                have : Except.ok (ε := DBError) { db with rows := db.rows.map (fun a =>
                    if a.id = i then applyPatch data a else a) } = .ok db2 := by
                  exact hok
                cases this
                rfl
              subst hd
              exact forall2_map_self _ (fun a => by
                by_cases hc : a.id = i
                · rw [if_pos hc]
                  obtain ⟨e1, e2, e3, e4⟩ := applyPatch_immutable data a
                  exact ⟨e1, e2, e3, e4⟩
                · rw [if_neg hc]
                  exact ⟨rfl, rfl, rfl, rfl⟩) db.rows
            · simp at hok
      · cases hok
        exact hsame

theorem c2_invariants_witness :
    acctEx.request_count ≤
      ({ acctEx with request_count := 1, last_used_at := some 5 } : Account).request_count ∧
    ({ acctEx with request_count := 1, last_used_at := some 5 } : Account).created_at
      = acctEx.created_at ∧
    ({ acctEx with request_count := 1, last_used_at := some 5 } : Account).id = acctEx.id :=
  c2_invariants.1 mConn dbEx [Op.opIncrement 5 1] 1 acctEx
    { acctEx with request_count := 1, last_used_at := some 5 }
    (by unfold IdsFresh; decide) (by decide) (by decide)
